import Mathlib

/-!
Shallow embedding of `manticore/core/state_merging.py` (state-equivalence and
state-merging subsystem of a symbolic-execution engine) and proofs about it.

Conventions of the embedding:
* SMT expressions (`smtlib` Expressions) are the inductive type `Expr`; boolean
  expressions double as constraints.  `ConstraintSet` is the ordered list of its
  constraints (the `.constraints` attribute of the Python object).
* The ambient solver singleton (`solver.must_be_true(cs, e)`) is passed
  explicitly as a parameter `oracle : ConstraintSet → Expr → Bool`.
* In-place mutation is modelled by explicit state passing: a Python function
  mutating `state` becomes a Lean function returning the new state.  A Python
  `assert` that can fail becomes an `Except`/`Option` result, `Except.error`
  carrying the state at the moment the exception escapes.
-/

namespace StateMerging

/-- Symbolic expressions of the solver backend (`smtlib`): a symbolic variable,
a concrete literal, conjunction (`&`), disjunction (`|`) and equality (`==`)
nodes.  Only the fragment used by `state_merging.py` is embedded. -/
inductive Expr where
  | var (n : Nat)
  | lit (n : Nat)
  | and (a b : Expr)
  | or (a b : Expr)
  | eq (a b : Expr)
deriving DecidableEq, Repr

/-- Evaluation of an expression under an assignment of the symbolic variables.
Values are numbers; boolean expressions evaluate to `1` (true) / `0` (false),
an expression is "true" under `ρ` when its value is nonzero. -/
def Expr.eval (ρ : Nat → Nat) : Expr → Nat
  | .var n => ρ n
  | .lit n => n
  | .and a b => if a.eval ρ ≠ 0 ∧ b.eval ρ ≠ 0 then 1 else 0
  | .or a b => if a.eval ρ ≠ 0 ∨ b.eval ρ ≠ 0 then 1 else 0
  | .eq a b => if a.eval ρ = b.eval ρ then 1 else 0

/-- A `ConstraintSet` is an ordered sequence of (boolean) expressions,
semantically their conjunction; this is the `.constraints` list of the Python
object. -/
abbrev ConstraintSet := List Expr

/-- The solver oracle interface: `oracle cs e` is `solver.must_be_true(cs, e)`,
true iff `e` holds under every assignment satisfying `cs`. -/
abbrev Oracle := ConstraintSet → Expr → Bool

/-- `compare_buffers(cs, buffer1, buffer2)`: `False` when the lengths differ,
otherwise one `solver.must_be_true(cs, b1 == b2)` query per position, any
failing query short-circuiting to `False`. -/
def compare_buffers (oracle : Oracle) (cs : ConstraintSet)
    (buffer1 buffer2 : List Expr) : Bool :=
  if buffer1.length ≠ buffer2.length then false
  else (buffer1.zip buffer2).all fun p => oracle cs (Expr.eq p.1 p.2)

/-- `merge_constraints(constraints1, constraints2)`.  The source starts from
`constraints[0]` (an `IndexError` when a set is empty, modelled as `none`) and
left-folds `&` over the remaining constraints of each set, then returns both
conjunctions together with a fresh `ConstraintSet` holding the single
constraint `exp1 | exp2`. -/
def merge_constraints (constraints1 constraints2 : ConstraintSet) :
    Option (Expr × Expr × ConstraintSet) :=
  match constraints1, constraints2 with
  | c1 :: rest1, c2 :: rest2 =>
      let exp1 := rest1.foldl Expr.and c1
      let exp2 := rest2.foldl Expr.and c2
      some (exp1, exp2, [Expr.or exp1 exp2])
  | _, _ => none

/-! ### Sockets

Two models of the `Socket` object graph are used.

`Socket` below is the inductive (necessarily acyclic) model: a socket is a
buffer of byte expressions plus an optional peer; `none` is the Python `None`.
The recursion of `compare_sockets` is structural on it, so it is a model of
the *terminating* executions of the Python function only.

Because Python peer references can form cycles, we additionally model the
general heap of sockets (`HSocket` referenced by identity) and the recursion
of `compare_sockets` with explicit fuel (`compare_sockets_fuel`): a `none`
result for every fuel bound means the Python recursion never returns. -/

/-- Inductive (acyclic) model of a `Socket`: a buffer of byte expressions and
an optional peer socket. -/
inductive Socket where
  | mk (buffer : List Expr) (peer : Option Socket)

/-- `compare_sockets(cs, socket1, socket2)` on the inductive socket model,
mirroring the `None` checks of the source, `compare_buffers` on the buffers and the
recursion on the peers. -/
def compare_sockets (oracle : Oracle) (cs : ConstraintSet) :
    Option Socket → Option Socket → Bool
  | none, socket2 => socket2.isNone
  | some _, none => false
  | some (.mk b1 p1), some (.mk b2 p2) =>
      if ¬ compare_buffers oracle cs b1 b2 then false
      else compare_sockets oracle cs p1 p2

/-- A socket in the heap model: a buffer plus an optional peer *reference*
(a socket identity), so that peer chains may be cyclic, as in Python. -/
structure HSocket where
  buffer : List Expr
  peer : Option Nat

/-- A heap of socket objects, indexed by identity. -/
abbrev SocketHeap := Nat → HSocket

/-- `compare_sockets` over the socket heap, with explicit fuel bounding the
recursion depth: `some b` is the result the Python function returns within
that depth, `none` means the recursion is still running when the fuel runs
out.  Apart from the fuel, the body is exactly that of `compare_sockets`. -/
def compare_sockets_fuel (heap : SocketHeap) (oracle : Oracle)
    (cs : ConstraintSet) : Nat → Option Nat → Option Nat → Option Bool
  | 0, _, _ => none
  | _ + 1, none, socket2 => some socket2.isNone
  | _ + 1, some _, none => some false
  | fuel + 1, some i1, some i2 =>
      if ¬ compare_buffers oracle cs (heap i1).buffer (heap i2).buffer then
        some false
      else
        compare_sockets_fuel heap oracle cs fuel (heap i1).peer (heap i2).peer

/-! ### Memory -/

/-- A memory `Map`: one contiguous region.  `Map.__eq__`/`__ne__` compare the
name, permissions, start and end only, `Map.__lt__` (used by `sorted`) orders
by start address, and `m[m.start:m.end]` reads the concrete bytes of the region,
modelled by the `bytes` field. -/
structure MMap where
  name : String
  perm : String
  start : Nat
  stop : Nat
  bytes : List Nat
deriving DecidableEq, Repr

/-- `Map.__eq__`: compares the names, permissions, starts and ends of the maps
(the concrete bytes are not part of map equality). -/
def MMap.identEq (m1 m2 : MMap) : Bool :=
  m1.name == m2.name && m1.perm == m2.perm && m1.start == m2.start &&
    m1.stop == m2.stop

/-- `sorted(list(mem.maps))`: the stable Python sort under `Map.__lt__`
(ordering by start address). -/
def sortMaps (maps : List MMap) : List MMap :=
  maps.mergeSort fun a b => decide (a.start ≤ b.start)

/-- A memory object.  `maps` is its collection of `Map`s; `isSMemory` is the
runtime class test comparing `mem.__class__.__name__` with the string SMemory; `symbols` lists the
keys of the `_symbols` dict (the addresses holding a symbolic byte entry —
only an `SMemory` has this attribute, a concrete memory has none); `readByte`
is the one-byte read, `mem.read(addr, 1) = [readByte addr]`. -/
structure Memory where
  maps : List MMap
  isSMemory : Bool
  symbols : List Nat
  readByte : Nat → Expr

/-- `mem.read(addr, size)`: the list of the `size` byte expressions starting
at `addr`. -/
def Memory.read (m : Memory) (addr size : Nat) : List Expr :=
  (List.range size).map fun i => m.readByte (addr + i)

/-- `compare_byte_vals(mem1, mem2, addr, merged_constraint)`: reads one byte
from each memory at `addr`, asserts both reads are singletons (always true
here since `read` returns exactly `size` bytes; the non-singleton branches of
the match are unreachable) and queries
`solver.must_be_true(merged_constraint, val1[0] == val2[0])`. -/
def compare_byte_vals (oracle : Oracle) (mem1 mem2 : Memory) (addr : Nat)
    (merged_constraint : ConstraintSet) : Bool :=
  match mem1.read addr 1, mem2.read addr 1 with
  | [v1], [v2] => oracle merged_constraint (Expr.eq v1 v2)
  | _, _ => false

/-- The addresses whose symbolic byte entries a memory exposes: the `_symbols`
keys when the object is an `SMemory`, nothing otherwise (the source only
touches `_symbols` behind the class-name test). -/
def symAddrs (m : Memory) : List Nat :=
  if m.isSMemory then m.symbols else []

/-- `compare_mem(mem1, mem2, merged_constraint)`: sorts both map lists,
rejects on differing counts, compares the identity attributes of the paired maps
(`m1 != m2`) and concrete byte ranges, then checks the symbolic byte
addresses of `mem1` (recording them in `checked_addrs`) and the not yet
checked symbolic byte addresses of `mem2` with `compare_byte_vals`.  The
early-`return False` loops of the source are the `List.all` calls. -/
def compare_mem (oracle : Oracle) (mem1 mem2 : Memory)
    (merged_constraint : ConstraintSet) : Bool :=
  let maps1 := sortMaps mem1.maps
  let maps2 := sortMaps mem2.maps
  if maps1.length ≠ maps2.length then false
  else if ¬ ((maps1.zip maps2).all fun p =>
      p.1.identEq p.2 && p.1.bytes == p.2.bytes) then false
  else
    let checked_addrs := if mem1.isSMemory then mem1.symbols else []
    if mem1.isSMemory ∧
        ¬ (mem1.symbols.all fun addr1 =>
          compare_byte_vals oracle mem1 mem2 addr1 merged_constraint) then
      false
    else if mem2.isSMemory ∧
        ¬ (((mem2.symbols.filter fun addr2 => addr2 ∉ checked_addrs)).all
          fun addr2 =>
            compare_byte_vals oracle mem1 mem2 addr2 merged_constraint) then
      false
    else true

/-! ### States and the merge gate -/

/-- A syscall trace entry `(name, fd, data)`. -/
structure TraceEntry where
  name : String
  fd : Nat
  data : List Expr

/-- The platform (I/O) state of an execution state: input and output sockets,
the symbolic files mapping and the ordered syscall trace. -/
structure PlatformState where
  input : Option Socket
  output : Option Socket
  symbolic_files : List String
  syscall_trace : List TraceEntry

/-! ### CPU and register values -/

/-- A value read from a register: a concrete machine integer (a Python
`int`), a symbolic `BitVec` of a declared size, a symbolic boolean
expression, or one of the conditional-select expressions the merger builds
(`Operators.ITE` and `Operators.ITEBV`).  `issymbolic` is true for everything
but `concrete`; `isinstance(v, BitVec)` holds for `symBV` and `itebv`. -/
inductive RVal where
  | concrete (n : Nat)
  | symBV (size : Nat) (name : Nat)
  | symBool (name : Nat)
  | ite (cond : Expr) (a b : RVal)
  | itebv (size : Nat) (cond : Expr) (a b : RVal)
deriving DecidableEq, Repr

/-- `issymbolic(v)`: everything except a concrete value is symbolic. -/
def RVal.issymbolic : RVal → Bool
  | .concrete _ => false
  | _ => true

/-- The `size` attribute of a value that is a `BitVec` instance, `none` for
values that are not `BitVec`s (concrete integers, boolean expressions). -/
def RVal.bvSize : RVal → Option Nat
  | .symBV size _ => some size
  | .itebv size _ _ _ => some size
  | _ => none

/-- Register identifiers. -/
abbrev Reg := Nat

/-- A CPU: its list of canonical registers, its register file
(`read_register`/`write_register` target) and the declared register widths
(`cpu.regfile.sizeof`). -/
structure CPU where
  canonical_registers : List Reg
  regs : Reg → RVal
  sizeof : Reg → Nat

/-- An execution state: platform, memory, CPU and constraint set. -/
structure State where
  platform : PlatformState
  mem : Memory
  cpu : CPU
  constraints : ConstraintSet

/-- `is_merge_possible(state1, state2, merged_constraint)`: input/output
sockets, then symbolic files, then syscall trace length, then the positional
syscall entries (name and fd structurally, data via `compare_buffers`), then
memory; the first failing check returns `(False, reason)`. -/
def is_merge_possible (oracle : Oracle) (state1 state2 : State)
    (merged_constraint : ConstraintSet) : Bool × Option String :=
  let platform1 := state1.platform
  let platform2 := state2.platform
  if ¬ compare_sockets oracle merged_constraint platform1.input platform2.input
      ∨ ¬ compare_sockets oracle merged_constraint platform1.output
          platform2.output then
    (false, some "inequivalent socket operations")
  else if platform1.symbolic_files ≠ platform2.symbolic_files then
    (false, some "inequivalent symbolic files")
  else if platform1.syscall_trace.length ≠ platform2.syscall_trace.length then
    (false, some "inequivalent syscall trace lengths")
  else if ¬ ((platform1.syscall_trace.zip platform2.syscall_trace).all
      fun p =>
        p.1.name == p.2.name && p.1.fd == p.2.fd &&
          compare_buffers oracle merged_constraint p.1.data p.2.data) then
    (false, some "inequivalent syscall traces")
  else if ¬ compare_mem oracle state1.mem state2.mem merged_constraint then
    (false, some "inequivalent memory")
  else
    (true, none)

/-! ### CPU merge -/

/-- The loop body of `merge_cpu` over the remaining canonical registers,
threading the destination register file.  For each register the two operand
values are read; when both are `BitVec` instances the source `assert`s equal
sizes — a failing assert raises, modelled as `Except.error` carrying the
register file at that moment (writes made for earlier registers persist, as
they do through a Python exception).  When either value is symbolic or the
concrete values differ, the merged conditional-select is written into the
destination: `Operators.ITE` when the declared width is 1, else
`Operators.ITEBV` tagged with the declared width. -/
def merge_cpu_go (cpu1 cpu2 : CPU) (exp1 : Expr) :
    List Reg → (Reg → RVal) → Except (Reg → RVal) (Reg → RVal)
  | [], acc => .ok acc
  | reg :: rest, acc =>
      let val1 := cpu1.regs reg
      let val2 := cpu2.regs reg
      match val1.bvSize, val2.bvSize with
      | some s1, some s2 =>
          if s1 ≠ s2 then .error acc
          else
            merge_cpu_go cpu1 cpu2 exp1 rest (mergeWrite reg val1 val2 acc)
      | _, _ => merge_cpu_go cpu1 cpu2 exp1 rest (mergeWrite reg val1 val2 acc)
where
  /-- One conditional write of the loop body:
  `if issymbolic(val1) or issymbolic(val2) or val1 != val2: write_register`. -/
  mergeWrite (reg : Reg) (val1 val2 : RVal) (acc : Reg → RVal) : Reg → RVal :=
    if val1.issymbolic || val2.issymbolic || val1 ≠ val2 then
      Function.update acc reg
        (if cpu1.sizeof reg = 1 then RVal.ite exp1 val1 val2
         else RVal.itebv (cpu1.sizeof reg) exp1 val1 val2)
    else acc

/-- `merge_cpu(cpu1, cpu2, state, exp1)`: runs the register loop writing into
the register file of `state.cpu`.  `Except.error` is the escaping `AssertionError`,
carrying the mutated state as Python leaves it. -/
def merge_cpu (cpu1 cpu2 : CPU) (state : State) (exp1 : Expr) :
    Except State State :=
  match merge_cpu_go cpu1 cpu2 exp1 cpu1.canonical_registers state.cpu.regs with
  | .ok regs1 => .ok { state with cpu := { state.cpu with regs := regs1 } }
  | .error regs1 => .error { state with cpu := { state.cpu with regs := regs1 } }

/-- `merge(state1, state2, exp1, merged_constraint)`: the merged state is
`state1` itself (`merged_state = state1` aliases, so the `merge_cpu` destination
CPU *is* `state1.cpu`, the first operand); after the CPU merge the constraint
set is replaced wholesale by `merged_constraint`. -/
def merge (state1 state2 : State) (exp1 : Expr)
    (merged_constraint : ConstraintSet) : Except State State :=
  match merge_cpu state1.cpu state2.cpu state1 exp1 with
  | .ok merged_state => .ok { merged_state with constraints := merged_constraint }
  | .error st => .error st

/-! ### Named check predicates

The individual checks `is_merge_possible` runs, as standalone definitions, so
that the gate can be characterised in terms of them. -/

/-- The socket check of the merge gate: both the input and the output sockets
of the two platforms compare equal. -/
def socketsOk (oracle : Oracle) (mc : ConstraintSet)
    (platform1 platform2 : PlatformState) : Bool :=
  compare_sockets oracle mc platform1.input platform2.input &&
    compare_sockets oracle mc platform1.output platform2.output

/-- The symbolic-files check of the merge gate: structural equality of the
two symbolic-file mappings. -/
def symbolicFilesOk (platform1 platform2 : PlatformState) : Bool :=
  decide (platform1.symbolic_files = platform2.symbolic_files)

/-- The syscall-trace-length check of the merge gate. -/
def traceLenOk (platform1 platform2 : PlatformState) : Bool :=
  decide (platform1.syscall_trace.length = platform2.syscall_trace.length)

/-- The positional syscall-trace check of the merge gate: every positionally
paired entry agrees on name and file descriptor structurally and on the data
buffer via `compare_buffers`. -/
def tracesOk (oracle : Oracle) (mc : ConstraintSet)
    (platform1 platform2 : PlatformState) : Bool :=
  (platform1.syscall_trace.zip platform2.syscall_trace).all fun p =>
    p.1.name == p.2.name && p.1.fd == p.2.fd &&
      compare_buffers oracle mc p.1.data p.2.data

/-- The memory check of the merge gate. -/
def memOk (oracle : Oracle) (state1 state2 : State)
    (mc : ConstraintSet) : Bool :=
  compare_mem oracle state1.mem state2.mem mc

/-- The structural (non-solver) phase of `compare_mem`: equal counts of the
sorted map lists and, positionally, equal identity attributes and equal
concrete byte ranges. -/
def mapsOk (mem1 mem2 : Memory) : Bool :=
  (sortMaps mem1.maps).length == (sortMaps mem2.maps).length &&
    ((sortMaps mem1.maps).zip (sortMaps mem2.maps)).all fun p =>
      p.1.identEq p.2 && p.1.bytes == p.2.bytes

/-- The addresses on which `compare_mem` runs the per-byte oracle query: the
symbolic byte addresses of `mem1`, then the symbolic byte addresses of `mem2`
that were not already checked. -/
def queriedAddrs (mem1 mem2 : Memory) : List Nat :=
  symAddrs mem1 ++ (symAddrs mem2).filter fun addr2 => addr2 ∉ symAddrs mem1

/-! ### Concrete fixtures used by the witness theorems -/

/-- A heap in which every socket has an empty buffer and is its own peer:
socket `0` is a self-referential socket object. -/
def selfLoopHeap : SocketHeap := fun _ => ⟨[], some 0⟩

/-- An oracle that affirms every query. -/
def oracleT : Oracle := fun _ _ => true

/-- An empty platform: no sockets, no symbolic files, empty syscall trace. -/
def platform0 : PlatformState := ⟨none, none, [], []⟩

/-- A trivial concrete memory with no maps and no symbolic bytes. -/
def mem0 : Memory := ⟨[], false, [], fun _ => Expr.lit 0⟩

/-- A symbolic memory with no maps and one symbolic byte entry at address 5. -/
def memW1 : Memory := ⟨[], true, [5], fun _ => Expr.var 0⟩

/-- A concrete memory with no maps (and hence no symbolic byte entries). -/
def memW2 : Memory := ⟨[], false, [], fun _ => Expr.lit 0⟩

/-- A one-register CPU whose register 0 concretely holds 5. -/
def cpuW1 : CPU := ⟨[0], fun _ => RVal.concrete 5, fun _ => 8⟩

/-- A one-register CPU whose register 0 concretely holds 7. -/
def cpuW2 : CPU := ⟨[0], fun _ => RVal.concrete 7, fun _ => 8⟩

/-- A state carrying `cpuW1`; it is the destination (and first operand) of the
fixture merges. -/
def stateW : State := ⟨platform0, mem0, cpuW1, [Expr.var 1]⟩

/-- The second state of the fixture merge, carrying `cpuW2`. -/
def state2W : State := ⟨platform0, mem0, cpuW2, [Expr.var 2]⟩

/-- The register file `merge_cpu` produces on the fixture: register 0 becomes
the width-8 conditional select between 5 and 7. -/
def stateW' : State :=
  { stateW with
    cpu := { cpuW1 with
      regs := Function.update cpuW1.regs 0
        (RVal.itebv 8 (Expr.var 9) (RVal.concrete 5) (RVal.concrete 7)) } }

/-- The state the fixture top-level `merge` returns: `stateW'` with the merged
constraint set installed. -/
def mergedW : State := { stateW' with constraints := [Expr.var 3] }

/-- A two-register CPU: register 0 concretely holds 5, register 1 is a
symbolic `BitVec` of width 8. -/
def cpuX1 : CPU := ⟨[0, 1], fun r => if r = 0 then RVal.concrete 5 else RVal.symBV 8 0, fun _ => 8⟩

/-- A two-register CPU: register 0 concretely holds 7, register 1 is a
symbolic `BitVec` of width 16 — its width disagrees with `cpuX1`. -/
def cpuX2 : CPU := ⟨[0, 1], fun r => if r = 0 then RVal.concrete 7 else RVal.symBV 16 1, fun _ => 8⟩

/-- A state carrying `cpuX1`, the destination of the mismatching fixture. -/
def stateX : State := ⟨platform0, mem0, cpuX1, [Expr.var 1]⟩

/-! ## Theorems -/

/-- Truth of an embedded conjunction node. -/
theorem and_eval_ne (ρ : Nat → Nat) (a b : Expr) :
    (Expr.and a b).eval ρ ≠ 0 ↔ (a.eval ρ ≠ 0 ∧ b.eval ρ ≠ 0) := by
  by_cases h : a.eval ρ ≠ 0 ∧ b.eval ρ ≠ 0 <;> simp [Expr.eval, h]

/-- Truth of an embedded disjunction node. -/
theorem or_eval_ne (ρ : Nat → Nat) (a b : Expr) :
    (Expr.or a b).eval ρ ≠ 0 ↔ (a.eval ρ ≠ 0 ∨ b.eval ρ ≠ 0) := by
  by_cases h : a.eval ρ ≠ 0 ∨ b.eval ρ ≠ 0 <;> simp [Expr.eval, h]

/-- Truth of the left fold of `&` that `merge_constraints` builds: it holds
exactly when the seed and every folded constraint hold. -/
theorem foldl_and_eval (ρ : Nat → Nat) :
    ∀ (rest : List Expr) (c : Expr),
      (rest.foldl Expr.and c).eval ρ ≠ 0 ↔
        (c.eval ρ ≠ 0 ∧ ∀ e ∈ rest, e.eval ρ ≠ 0) := by
  intro rest
  induction rest with
  | nil => intro c; simp
  | cons e rest ih =>
      intro c
      rw [List.foldl_cons, ih, and_eval_ne]
      simp only [List.mem_cons]
      constructor
      · rintro ⟨⟨hc, he⟩, hrest⟩
        refine ⟨hc, fun x hx => ?_⟩
        rcases hx with rfl | hx
        · exact he
        · exact hrest x hx
      · rintro ⟨hc, hall⟩
        exact ⟨⟨hc, hall e (Or.inl rfl)⟩, fun x hx => hall x (Or.inr hx)⟩

/-- C1: the spec requires `compare_sockets` to terminate on every socket pair,
including cyclic peer chains; the source recurses through `peer` with no
visited-set guard.  On the self-referential socket (empty buffer, peer
pointing back to the socket itself) compared with itself, the recursion never
returns: the fuel-indexed model yields no result for any recursion depth. -/
theorem compare_sockets_cyclic_diverges (oracle : Oracle) (cs : ConstraintSet)
    (fuel : Nat) :
    compare_sockets_fuel selfLoopHeap oracle cs fuel (some 0) (some 0) = none := by
  induction fuel with
  | zero => rfl
  | succ n ih =>
      simpa [compare_sockets_fuel, selfLoopHeap, compare_buffers] using ih

/-- C9: `compare_buffers` succeeds exactly when the lengths agree and every
positional oracle query succeeds (so differing lengths yield `false`, a single
failing query yields `false`), and it accepts two empty buffers. -/
theorem compare_buffers_spec (oracle : Oracle) (cs : ConstraintSet)
    (buffer1 buffer2 : List Expr) :
    (compare_buffers oracle cs buffer1 buffer2 = true ↔
      (buffer1.length = buffer2.length ∧
        ∀ p ∈ buffer1.zip buffer2, oracle cs (Expr.eq p.1 p.2) = true)) ∧
    compare_buffers oracle cs [] [] = true := by
  refine ⟨?_, rfl⟩
  unfold compare_buffers
  split
  · simp_all
  · simp_all [List.all_eq_true]

/-- C10: `merge_constraints` reads `constraints[0]` of each input, so an empty
first or second constraint set makes it fail with an out-of-range access
instead of returning a result. -/
theorem merge_constraints_empty_errors (constraints1 constraints2 : ConstraintSet)
    (h : constraints1 = [] ∨ constraints2 = []) :
    merge_constraints constraints1 constraints2 = none := by
  rcases h with h | h
  · subst h; cases constraints2 <;> rfl
  · subst h; cases constraints1 <;> rfl

/-- Witness for C10 at a concrete input: the first set is empty. -/
theorem merge_constraints_empty_errors_witness :
    merge_constraints [] [Expr.var 0] = none :=
  merge_constraints_empty_errors [] [Expr.var 0] (Or.inl rfl)

/-- C3: on non-empty inputs `merge_constraints` returns the in-order left
conjunction of each constraint set (which holds under an assignment exactly
when every member does), and a merged set holding exactly one expression, the
disjunction of the two conjunctions. -/
theorem merge_constraints_spec (constraints1 constraints2 : ConstraintSet)
    (exp1 exp2 : Expr) (merged : ConstraintSet)
    (h : merge_constraints constraints1 constraints2 = some (exp1, exp2, merged)) :
    (∀ c rest, constraints1 = c :: rest → exp1 = rest.foldl Expr.and c) ∧
    (∀ c rest, constraints2 = c :: rest → exp2 = rest.foldl Expr.and c) ∧
    (∀ ρ, exp1.eval ρ ≠ 0 ↔ ∀ c ∈ constraints1, c.eval ρ ≠ 0) ∧
    (∀ ρ, exp2.eval ρ ≠ 0 ↔ ∀ c ∈ constraints2, c.eval ρ ≠ 0) ∧
    merged = [Expr.or exp1 exp2] := by
  cases constraints1 with
  | nil => cases constraints2 <;> simp [merge_constraints] at h
  | cons c1 rest1 =>
    cases constraints2 with
    | nil => simp [merge_constraints] at h
    | cons c2 rest2 =>
      simp only [merge_constraints, Option.some.injEq, Prod.mk.injEq] at h
      obtain ⟨h1, h2, h3⟩ := h
      subst h1; subst h2; subst h3
      refine ⟨fun c rest hc => by injection hc with hc hrest; subst hc; subst hrest; rfl,
              fun c rest hc => by injection hc with hc hrest; subst hc; subst hrest; rfl,
              fun ρ => ?_, fun ρ => ?_, rfl⟩
      · rw [foldl_and_eval]; simp
      · rw [foldl_and_eval]; simp

/-- Witness for C3 at concrete inputs `[x0 & x1]`-style sets. -/
theorem merge_constraints_spec_witness :
    merge_constraints [Expr.var 0, Expr.var 1] [Expr.var 2] =
      some (Expr.and (Expr.var 0) (Expr.var 1), Expr.var 2,
        [Expr.or (Expr.and (Expr.var 0) (Expr.var 1)) (Expr.var 2)]) ∧
    ((Expr.and (Expr.var 0) (Expr.var 1)).eval (fun _ => 1) ≠ 0 ↔
      ∀ c ∈ ([Expr.var 0, Expr.var 1] : ConstraintSet), c.eval (fun _ => 1) ≠ 0) :=
  ⟨rfl,
   (merge_constraints_spec [Expr.var 0, Expr.var 1] [Expr.var 2]
      (Expr.and (Expr.var 0) (Expr.var 1)) (Expr.var 2)
      [Expr.or (Expr.and (Expr.var 0) (Expr.var 1)) (Expr.var 2)]
      rfl).2.2.1 (fun _ => 1)⟩

/-- C4: every assignment satisfying all of `constraints1` (or all of
`constraints2`) satisfies every expression of the merged set, and hence the
merged set is satisfiable whenever either input set is. -/
theorem merge_constraints_merged_sat (constraints1 constraints2 : ConstraintSet)
    (exp1 exp2 : Expr) (merged : ConstraintSet)
    (h : merge_constraints constraints1 constraints2 = some (exp1, exp2, merged)) :
    (∀ ρ, ((∀ c ∈ constraints1, c.eval ρ ≠ 0) ∨ (∀ c ∈ constraints2, c.eval ρ ≠ 0)) →
      ∀ c ∈ merged, c.eval ρ ≠ 0) ∧
    (((∃ ρ, ∀ c ∈ constraints1, c.eval ρ ≠ 0) ∨ (∃ ρ, ∀ c ∈ constraints2, c.eval ρ ≠ 0)) →
      ∃ ρ, ∀ c ∈ merged, c.eval ρ ≠ 0) := by
  cases constraints1 with
  | nil => cases constraints2 <;> simp [merge_constraints] at h
  | cons c1 rest1 =>
    cases constraints2 with
    | nil => simp [merge_constraints] at h
    | cons c2 rest2 =>
      simp only [merge_constraints, Option.some.injEq, Prod.mk.injEq] at h
      obtain ⟨h1, h2, h3⟩ := h
      subst h1; subst h2; subst h3
      have main : ∀ ρ, ((∀ c ∈ c1 :: rest1, c.eval ρ ≠ 0) ∨
          (∀ c ∈ c2 :: rest2, c.eval ρ ≠ 0)) →
          ∀ c ∈ [Expr.or (rest1.foldl Expr.and c1) (rest2.foldl Expr.and c2)],
            c.eval ρ ≠ 0 := by
        intro ρ hsat c hc
        rcases List.mem_singleton.mp hc with rfl
        rw [or_eval_ne]
        rcases hsat with hsat | hsat
        · exact Or.inl ((foldl_and_eval ρ rest1 c1).mpr
            ⟨hsat c1 (List.mem_cons_self _ _), fun e he => hsat e (List.mem_cons_of_mem _ he)⟩)
        · exact Or.inr ((foldl_and_eval ρ rest2 c2).mpr
            ⟨hsat c2 (List.mem_cons_self _ _), fun e he => hsat e (List.mem_cons_of_mem _ he)⟩)
      refine ⟨main, ?_⟩
      rintro (⟨ρ, hρ⟩ | ⟨ρ, hρ⟩)
      · exact ⟨ρ, main ρ (Or.inl hρ)⟩
      · exact ⟨ρ, main ρ (Or.inr hρ)⟩

/-- Witness for C4 at concrete inputs: the all-ones assignment satisfies
`[x0]`, and hence the single merged expression. -/
theorem merge_constraints_merged_sat_witness :
    merge_constraints [Expr.var 0] [Expr.var 1] =
      some (Expr.var 0, Expr.var 1, [Expr.or (Expr.var 0) (Expr.var 1)]) ∧
    (Expr.or (Expr.var 0) (Expr.var 1)).eval (fun _ => 1) ≠ 0 :=
  ⟨rfl,
   (merge_constraints_merged_sat [Expr.var 0] [Expr.var 1]
      (Expr.var 0) (Expr.var 1) [Expr.or (Expr.var 0) (Expr.var 1)] rfl).1
      (fun _ => 1) (Or.inl (by simp [Expr.eval]))
      (Expr.or (Expr.var 0) (Expr.var 1)) (by simp)⟩

/-- C2: `is_merge_possible` is the short-circuiting cascade of its five checks
in the fixed order sockets, symbolic files, syscall-trace length, positional
syscall entries, memory, each failure returning `(false, reason)` with the
corresponding reason string, and it returns `(true, none)` exactly when every
check passes. -/
theorem is_merge_possible_check_order (oracle : Oracle) (state1 state2 : State)
    (mc : ConstraintSet) :
    (is_merge_possible oracle state1 state2 mc =
      if ¬ socketsOk oracle mc state1.platform state2.platform then
        (false, some "inequivalent socket operations")
      else if ¬ symbolicFilesOk state1.platform state2.platform then
        (false, some "inequivalent symbolic files")
      else if ¬ traceLenOk state1.platform state2.platform then
        (false, some "inequivalent syscall trace lengths")
      else if ¬ tracesOk oracle mc state1.platform state2.platform then
        (false, some "inequivalent syscall traces")
      else if ¬ memOk oracle state1 state2 mc then
        (false, some "inequivalent memory")
      else (true, none)) ∧
    (is_merge_possible oracle state1 state2 mc = (true, none) ↔
      (socketsOk oracle mc state1.platform state2.platform = true ∧
       symbolicFilesOk state1.platform state2.platform = true ∧
       traceLenOk state1.platform state2.platform = true ∧
       tracesOk oracle mc state1.platform state2.platform = true ∧
       memOk oracle state1 state2 mc = true)) := by
  have heq : is_merge_possible oracle state1 state2 mc =
      if ¬ socketsOk oracle mc state1.platform state2.platform then
        (false, some "inequivalent socket operations")
      else if ¬ symbolicFilesOk state1.platform state2.platform then
        (false, some "inequivalent symbolic files")
      else if ¬ traceLenOk state1.platform state2.platform then
        (false, some "inequivalent syscall trace lengths")
      else if ¬ tracesOk oracle mc state1.platform state2.platform then
        (false, some "inequivalent syscall traces")
      else if ¬ memOk oracle state1 state2 mc then
        (false, some "inequivalent memory")
      else (true, none) := by
    simp only [is_merge_possible, socketsOk, symbolicFilesOk, traceLenOk,
      tracesOk, memOk, Bool.and_eq_true, not_and_or, decide_eq_true_eq, ne_eq]
  refine ⟨heq, ?_⟩
  rw [heq]
  by_cases c1 : socketsOk oracle mc state1.platform state2.platform = true <;>
  by_cases c2 : symbolicFilesOk state1.platform state2.platform = true <;>
  by_cases c3 : traceLenOk state1.platform state2.platform = true <;>
  by_cases c4 : tracesOk oracle mc state1.platform state2.platform = true <;>
  by_cases c5 : memOk oracle state1 state2 mc = true <;>
  simp [c1, c2, c3, c4, c5]

/-- The conditional write of one `merge_cpu` iteration leaves every other
register of the destination register file unchanged. -/
theorem mergeWrite_noteq (cpu1 : CPU) (exp1 : Expr) (r : Reg) (v1 v2 : RVal)
    (acc : Reg → RVal) (reg : Reg) (h : reg ≠ r) :
    merge_cpu_go.mergeWrite cpu1 exp1 r v1 v2 acc reg = acc reg := by
  unfold merge_cpu_go.mergeWrite
  split
  · exact Function.update_noteq h _ _
  · rfl

/-- The conditional write of one `merge_cpu` iteration, read back at its own
register: the conditional select when either value is symbolic or the values
differ, the prior destination value otherwise. -/
theorem mergeWrite_self (cpu1 : CPU) (exp1 : Expr) (r : Reg) (v1 v2 : RVal)
    (acc : Reg → RVal) :
    merge_cpu_go.mergeWrite cpu1 exp1 r v1 v2 acc r =
      if v1.issymbolic ∨ v2.issymbolic ∨ v1 ≠ v2 then
        (if cpu1.sizeof r = 1 then RVal.ite exp1 v1 v2
         else RVal.itebv (cpu1.sizeof r) exp1 v1 v2)
      else acc r := by
  unfold merge_cpu_go.mergeWrite
  simp only [Bool.or_eq_true, decide_eq_true_eq, ne_eq, or_assoc]
  split_ifs with h1 h2
  · exact Function.update_same _ _ _
  · exact Function.update_same _ _ _
  · rfl

/-- The value the conditional write leaves at its own register depends on the
prior register file only through the value at that register. -/
theorem mergeWrite_self_congr (cpu1 : CPU) (exp1 : Expr) (r : Reg)
    (v1 v2 : RVal) (acc1 acc2 : Reg → RVal) (h : acc1 r = acc2 r) :
    merge_cpu_go.mergeWrite cpu1 exp1 r v1 v2 acc1 r =
      merge_cpu_go.mergeWrite cpu1 exp1 r v1 v2 acc2 r := by
  rw [mergeWrite_self, mergeWrite_self, h]

/-- Registers outside the processed list are never touched by the `merge_cpu`
loop, whether it returns normally or aborts on the width assert. -/
theorem merge_cpu_go_frame (cpu1 cpu2 : CPU) (exp1 : Expr) :
    ∀ (l : List Reg) (acc f : Reg → RVal) (reg : Reg), reg ∉ l →
      (merge_cpu_go cpu1 cpu2 exp1 l acc = .ok f ∨
       merge_cpu_go cpu1 cpu2 exp1 l acc = .error f) →
      f reg = acc reg := by
  intro l
  induction l with
  | nil =>
      intro acc f reg _ hres
      simp only [merge_cpu_go] at hres
      rcases hres with hres | hres
      · exact congrFun (Except.ok.inj hres).symm reg
      · exact absurd hres (by simp)
  | cons r rest ih =>
      intro acc f reg hnotmem hres
      rw [List.mem_cons, not_or] at hnotmem
      obtain ⟨hne, hnotmem⟩ := hnotmem
      have key : merge_cpu_go cpu1 cpu2 exp1 rest
            (merge_cpu_go.mergeWrite cpu1 exp1 r (cpu1.regs r) (cpu2.regs r) acc) = .ok f ∨
          merge_cpu_go cpu1 cpu2 exp1 rest
            (merge_cpu_go.mergeWrite cpu1 exp1 r (cpu1.regs r) (cpu2.regs r) acc) = .error f →
          f reg = acc reg := by
        intro h2
        rw [ih _ f reg hnotmem h2]
        exact mergeWrite_noteq cpu1 exp1 r _ _ acc reg hne
      rcases hres with hres | hres
      · simp only [merge_cpu_go] at hres
        split at hres
        · split at hres
          · exact absurd hres (by simp)
          · exact key (Or.inl hres)
        · exact key (Or.inl hres)
      · simp only [merge_cpu_go] at hres
        split at hres
        · split at hres
          · exact congrFun (Except.error.inj hres).symm reg
          · exact key (Or.inr hres)
        · exact key (Or.inr hres)

/-- When the `merge_cpu` loop over a duplicate-free register list returns
normally, the final value of a processed register is the conditional write
applied to the register file the loop started from. -/
theorem merge_cpu_go_mem_ok (cpu1 cpu2 : CPU) (exp1 : Expr) :
    ∀ (l : List Reg) (acc f : Reg → RVal) (reg : Reg),
      l.Nodup → reg ∈ l → merge_cpu_go cpu1 cpu2 exp1 l acc = .ok f →
      f reg = merge_cpu_go.mergeWrite cpu1 exp1 reg (cpu1.regs reg)
        (cpu2.regs reg) acc reg := by
  intro l
  induction l with
  | nil =>
      intro acc f reg _ hmem
      exact absurd hmem (List.not_mem_nil reg)
  | cons r rest ih =>
      intro acc f reg hnd hmem hres
      rw [List.nodup_cons] at hnd
      obtain ⟨hrnot, hnd⟩ := hnd
      have hstep : merge_cpu_go cpu1 cpu2 exp1 rest
          (merge_cpu_go.mergeWrite cpu1 exp1 r (cpu1.regs r) (cpu2.regs r) acc)
          = .ok f := by
        simp only [merge_cpu_go] at hres
        split at hres
        · split at hres
          · exact absurd hres (by simp)
          · exact hres
        · exact hres
      rcases List.mem_cons.mp hmem with rfl | hmem2
      · rw [merge_cpu_go_frame cpu1 cpu2 exp1 rest _ f reg hrnot (Or.inl hstep)]
      · have hne : reg ≠ r := fun hEq => hrnot (hEq ▸ hmem2)
        rw [ih _ f reg hnd hmem2 hstep]
        exact mergeWrite_self_congr cpu1 exp1 reg _ _ _ _
          (mergeWrite_noteq cpu1 exp1 r _ _ acc reg hne)

/-- When some register in the remaining list has two `BitVec` operand values
of different sizes, the `merge_cpu` loop aborts on the width assert, and (for
a duplicate-free list) that register was not yet written when it does. -/
theorem merge_cpu_go_mismatch (cpu1 cpu2 : CPU) (exp1 : Expr) :
    ∀ (l : List Reg) (acc : Reg → RVal) (reg : Reg) (s1 s2 : Nat),
      l.Nodup → reg ∈ l →
      (cpu1.regs reg).bvSize = some s1 → (cpu2.regs reg).bvSize = some s2 →
      s1 ≠ s2 →
      ∃ f, merge_cpu_go cpu1 cpu2 exp1 l acc = .error f ∧ f reg = acc reg := by
  intro l
  induction l with
  | nil =>
      intro acc reg s1 s2 _ hmem
      exact absurd hmem (List.not_mem_nil reg)
  | cons r rest ih =>
      intro acc reg s1 s2 hnd hmem hv1 hv2 hne
      rw [List.nodup_cons] at hnd
      obtain ⟨hrnot, hnd⟩ := hnd
      rcases List.mem_cons.mp hmem with rfl | hmem2
      · refine ⟨acc, ?_, rfl⟩
        simp only [merge_cpu_go, hv1, hv2]
        simp [hne]
      · have hner : reg ≠ r := fun hEq => hrnot (hEq ▸ hmem2)
        simp only [merge_cpu_go]
        split
        · rename_i s1r s2r hs1r hs2r
          split
          · exact ⟨acc, rfl, rfl⟩
          · obtain ⟨f, hf, hfr⟩ := ih
              (merge_cpu_go.mergeWrite cpu1 exp1 r (cpu1.regs r) (cpu2.regs r) acc)
              reg s1 s2 hnd hmem2 hv1 hv2 hne
            exact ⟨f, hf, hfr.trans
              (mergeWrite_noteq cpu1 exp1 r _ _ acc reg hner)⟩
        · obtain ⟨f, hf, hfr⟩ := ih
            (merge_cpu_go.mergeWrite cpu1 exp1 r (cpu1.regs r) (cpu2.regs r) acc)
            reg s1 s2 hnd hmem2 hv1 hv2 hne
          exact ⟨f, hf, hfr.trans
            (mergeWrite_noteq cpu1 exp1 r _ _ acc reg hner)⟩

/-- C6: for every canonical register, `merge_cpu` leaves the destination
register untouched when both operand values are concrete and equal, and
otherwise writes the conditional select of the two values guarded by `exp1`:
the boolean `ITE` form when the declared register width is 1, the
width-tagged `ITEBV` form (tagged with the declared width) otherwise. -/
theorem merge_cpu_register_spec (cpu1 cpu2 : CPU) (state : State) (exp1 : Expr)
    (merged : State) (reg : Reg)
    (hnd : cpu1.canonical_registers.Nodup)
    (hreg : reg ∈ cpu1.canonical_registers)
    (h : merge_cpu cpu1 cpu2 state exp1 = .ok merged) :
    merged.cpu.regs reg =
      if (cpu1.regs reg).issymbolic ∨ (cpu2.regs reg).issymbolic ∨
          cpu1.regs reg ≠ cpu2.regs reg then
        (if cpu1.sizeof reg = 1 then
          RVal.ite exp1 (cpu1.regs reg) (cpu2.regs reg)
         else RVal.itebv (cpu1.sizeof reg) exp1 (cpu1.regs reg) (cpu2.regs reg))
      else state.cpu.regs reg := by
  unfold merge_cpu at h
  split at h
  · rename_i regs1 hgo
    have hregs : merged.cpu.regs = regs1 := by rw [← Except.ok.inj h]
    have := merge_cpu_go_mem_ok cpu1 cpu2 exp1 cpu1.canonical_registers
      state.cpu.regs regs1 reg hnd hreg hgo
    rw [hregs, this, mergeWrite_self]
  · exact absurd h (by simp)

/-- Witness for C6 on the one-register fixture: both values concrete and
different, width 8, so the destination register becomes the `ITEBV` select. -/
theorem merge_cpu_register_spec_witness :
    (0 : Reg) ∈ cpuW1.canonical_registers ∧
    stateW'.cpu.regs 0 =
      (if (cpuW1.regs 0).issymbolic ∨ (cpuW2.regs 0).issymbolic ∨
          cpuW1.regs 0 ≠ cpuW2.regs 0 then
        (if cpuW1.sizeof 0 = 1 then
          RVal.ite (Expr.var 9) (cpuW1.regs 0) (cpuW2.regs 0)
         else RVal.itebv (cpuW1.sizeof 0) (Expr.var 9) (cpuW1.regs 0) (cpuW2.regs 0))
      else stateW.cpu.regs 0) :=
  ⟨by decide,
   merge_cpu_register_spec cpuW1 cpuW2 stateW (Expr.var 9) stateW' 0
     (by decide) (by decide) rfl⟩

/-- C7 counterexample: on `cpuX1`/`cpuX2` the width assert fires at register 1
— but only after the loop already wrote the merged conditional select for
register 0 into the destination, so the claim wording that the operation
aborts before writing any merged value is false: when the exception escapes,
register 0 of the destination already holds a merged value (it held the
concrete value 5 before the call). -/
theorem merge_cpu_width_mismatch_prior_write :
    ((merge_cpu cpuX1 cpuX2 stateX (Expr.var 9)).mapError
        fun st => st.cpu.regs 0) =
      Except.error (RVal.itebv 8 (Expr.var 9) (RVal.concrete 5) (RVal.concrete 7)) ∧
    stateX.cpu.regs 0 = RVal.concrete 5 ∧
    RVal.itebv 8 (Expr.var 9) (RVal.concrete 5) (RVal.concrete 7) ≠
      RVal.concrete 5 :=
  ⟨rfl, rfl, by decide⟩

/-- C7 (amended): a width mismatch between two `BitVec` operand values of a
canonical register makes `merge_cpu` abort with the assertion failure: no
merged register file is ever returned (the mismatch is neither coerced into a
select expression nor reported as a recoverable result), and the mismatched
register itself is never written — though registers earlier in canonical
order may already have been. -/
theorem merge_cpu_width_mismatch_aborts (cpu1 cpu2 : CPU) (state : State)
    (exp1 : Expr) (reg : Reg) (s1 s2 : Nat)
    (hnd : cpu1.canonical_registers.Nodup)
    (hreg : reg ∈ cpu1.canonical_registers)
    (h1 : (cpu1.regs reg).bvSize = some s1)
    (h2 : (cpu2.regs reg).bvSize = some s2)
    (hne : s1 ≠ s2) :
    (∀ merged, merge_cpu cpu1 cpu2 state exp1 ≠ .ok merged) ∧
    (∃ errSt, merge_cpu cpu1 cpu2 state exp1 = .error errSt ∧
      errSt.cpu.regs reg = state.cpu.regs reg) := by
  obtain ⟨f, hf, hfr⟩ := merge_cpu_go_mismatch cpu1 cpu2 exp1
    cpu1.canonical_registers state.cpu.regs reg s1 s2 hnd hreg h1 h2 hne
  constructor
  · intro merged hok
    unfold merge_cpu at hok
    rw [hf] at hok
    exact absurd hok (by simp)
  · refine ⟨{ state with cpu := { state.cpu with regs := f } }, ?_, hfr⟩
    unfold merge_cpu
    rw [hf]

/-- Witness for (amended) C7 on the mismatching fixture: register 1 carries an
8-bit `BitVec` in `cpuX1` and a 16-bit one in `cpuX2`, and the call yields no
merged state. -/
theorem merge_cpu_width_mismatch_aborts_witness :
    (1 : Reg) ∈ cpuX1.canonical_registers ∧
    merge_cpu cpuX1 cpuX2 stateX (Expr.var 9) ≠ Except.ok stateX :=
  ⟨by decide,
   (merge_cpu_width_mismatch_aborts cpuX1 cpuX2 stateX (Expr.var 9) 1 8 16
      (by decide) (by decide) rfl rfl (by decide)).1 stateX⟩

/-- C8 counterexample: in the top-level `merge` the destination state is the
first argument, whose `cpu` *is* the first operand CPU object (the call is
`merge_cpu(state1.cpu, state2.cpu, state1, exp1)`), so the register file seen
through `cpuA` after the call holds the merged select for register 0 — it is
not left unchanged: before the call it held the concrete value 5. -/
theorem merge_mutates_first_operand_cpu :
    ((merge stateW state2W (Expr.var 9) [Expr.var 3]).map
        fun st => st.cpu.regs 0) =
      Except.ok (RVal.itebv 8 (Expr.var 9) (RVal.concrete 5) (RVal.concrete 7)) ∧
    stateW.cpu = cpuW1 ∧
    stateW.cpu.regs 0 = RVal.concrete 5 ∧
    RVal.itebv 8 (Expr.var 9) (RVal.concrete 5) (RVal.concrete 7) ≠
      RVal.concrete 5 :=
  ⟨rfl, rfl, rfl, by decide⟩

/-- C8 (amended): `merge_cpu` mutates nothing but the register file of the
destination state — platform, memory, constraints, register list and widths
are untouched, and registers outside the canonical list keep their values —
and the top-level `merge` additionally only swaps in the merged constraint
set; but since the destination of `merge` is `stateA` itself, whose CPU is
the first operand, `cpuA` is only unchanged when it is not aliased with the
destination. -/
theorem merge_cpu_frame (cpu1 cpu2 : CPU) (state state1 state2 : State)
    (exp1 exp1m : Expr) (mc : ConstraintSet) (st1 st2 : State)
    (hok : merge_cpu cpu1 cpu2 state exp1 = .ok st1)
    (hmerge : merge state1 state2 exp1m mc = .ok st2) :
    (st1.platform = state.platform ∧ st1.mem = state.mem ∧
     st1.constraints = state.constraints ∧
     st1.cpu.canonical_registers = state.cpu.canonical_registers ∧
     st1.cpu.sizeof = state.cpu.sizeof ∧
     (∀ reg, reg ∉ cpu1.canonical_registers →
       st1.cpu.regs reg = state.cpu.regs reg)) ∧
    (st2.platform = state1.platform ∧ st2.mem = state1.mem ∧
     st2.constraints = mc ∧
     (∀ reg, reg ∉ state1.cpu.canonical_registers →
       st2.cpu.regs reg = state1.cpu.regs reg)) := by
  constructor
  · unfold merge_cpu at hok
    split at hok
    · rename_i regs1 hgo
      rw [← Except.ok.inj hok]
      refine ⟨rfl, rfl, rfl, rfl, rfl, fun reg hnm => ?_⟩
      exact merge_cpu_go_frame cpu1 cpu2 exp1 cpu1.canonical_registers
        state.cpu.regs regs1 reg hnm (Or.inl hgo)
    · exact absurd hok (by simp)
  · unfold merge at hmerge
    split at hmerge
    · rename_i ms hmc
      unfold merge_cpu at hmc
      split at hmc
      · rename_i regs1 hgo
        rw [← Except.ok.inj hmerge, ← Except.ok.inj hmc]
        refine ⟨rfl, rfl, rfl, fun reg hnm => ?_⟩
        exact merge_cpu_go_frame state1.cpu state2.cpu exp1m
          state1.cpu.canonical_registers state1.cpu.regs regs1 reg hnm
          (Or.inl hgo)
      · exact absurd hmc (by simp)
    · exact absurd hmerge (by simp)

/-- Witness for (amended) C8 on the fixture merge: platform, memory and the
untouched register 5 are preserved, and the merged state carries the merged
constraint set. -/
theorem merge_cpu_frame_witness :
    stateW'.platform = stateW.platform ∧
    mergedW.constraints = [Expr.var 3] ∧
    stateW'.cpu.regs 5 = stateW.cpu.regs 5 :=
  ⟨(merge_cpu_frame cpuW1 cpuW2 stateW stateW state2W (Expr.var 9) (Expr.var 9)
      [Expr.var 3] stateW' mergedW rfl rfl).1.1,
   (merge_cpu_frame cpuW1 cpuW2 stateW stateW state2W (Expr.var 9) (Expr.var 9)
      [Expr.var 3] stateW' mergedW rfl rfl).2.2.2.1,
   (merge_cpu_frame cpuW1 cpuW2 stateW stateW state2W (Expr.var 9) (Expr.var 9)
      [Expr.var 3] stateW' mergedW rfl rfl).1.2.2.2.2.2 5 (by decide)⟩

/-- C5: `compare_mem` fails when the structural phase fails (sorted map lists
of different counts, or a positional pair differing in identity attributes or
concrete byte range); when the structural phase passes it succeeds exactly
when the per-byte oracle query passes at every address carrying a symbolic
byte entry in either memory, and the list of queried addresses is
duplicate-free (an address symbolic on both sides is checked once) and covers
exactly the union of the symbolic byte addresses of the two memories; the
per-address check is one oracle query on the equality of the one-byte
reads. -/
theorem compare_mem_spec (oracle : Oracle) (mem1 mem2 : Memory)
    (mc : ConstraintSet)
    (h1 : mem1.symbols.Nodup) (h2 : mem2.symbols.Nodup) :
    (mapsOk mem1 mem2 = false → compare_mem oracle mem1 mem2 mc = false) ∧
    (mapsOk mem1 mem2 = true →
      (compare_mem oracle mem1 mem2 mc = true ↔
        ∀ a ∈ queriedAddrs mem1 mem2,
          compare_byte_vals oracle mem1 mem2 a mc = true)) ∧
    (queriedAddrs mem1 mem2).Nodup ∧
    (∀ a, a ∈ queriedAddrs mem1 mem2 ↔
      a ∈ symAddrs mem1 ∨ a ∈ symAddrs mem2) ∧
    (∀ a, compare_byte_vals oracle mem1 mem2 a mc =
      oracle mc (Expr.eq (mem1.readByte a) (mem2.readByte a))) := by
  refine ⟨?_, ?_, ?_, ?_, fun a => rfl⟩
  · intro hmo
    by_cases hlen : (sortMaps mem1.maps).length = (sortMaps mem2.maps).length
    · have hall : ¬ (((sortMaps mem1.maps).zip (sortMaps mem2.maps)).all
          fun p => p.1.identEq p.2 && p.1.bytes == p.2.bytes) = true := by
        intro hcontra
        rw [mapsOk, Bool.and_eq_false_iff] at hmo
        rcases hmo with hmo | hmo
        · simp [hlen] at hmo
        · simp [hcontra] at hmo
      simp [compare_mem, hlen, hall]
    · simp [compare_mem, hlen]
  · intro hmo
    rw [mapsOk, Bool.and_eq_true] at hmo
    obtain ⟨hlen, hall⟩ := hmo
    rw [beq_iff_eq] at hlen
    cases hS1 : mem1.isSMemory <;> cases hS2 : mem2.isSMemory <;>
      simp [compare_mem, hlen, hall, hS1, hS2, queriedAddrs, symAddrs,
        List.all_eq_true, -ne_eq]
    constructor
    · rintro ⟨ha1, ha2⟩ a (hmem | ⟨hmem, hnmem⟩)
      · exact ha1 a hmem
      · exact ha2 a hmem hnmem
    · intro hall2
      exact ⟨fun a ha => hall2 a (Or.inl ha),
             fun a ha hna => hall2 a (Or.inr ⟨ha, hna⟩)⟩
  · have nd1 : (symAddrs mem1).Nodup := by
      unfold symAddrs; split
      · exact h1
      · exact List.nodup_nil
    have nd2 : (symAddrs mem2).Nodup := by
      unfold symAddrs; split
      · exact h2
      · exact List.nodup_nil
    refine List.Nodup.append nd1 (nd2.filter _) ?_
    intro a ha hafil
    rw [List.mem_filter] at hafil
    exact absurd ha (by simpa using hafil.2)
  · intro a
    rw [queriedAddrs, List.mem_append, List.mem_filter]
    by_cases hmem : a ∈ symAddrs mem1 <;> simp [hmem]

/-- Witness for C5 on the fixture memories: one symbolic byte address on the
`SMemory` side, none on the concrete side; the queried address list is
exactly that address, and the comparison succeeds under the affirming
oracle. -/
theorem compare_mem_spec_witness :
    (queriedAddrs memW1 memW2).Nodup ∧
    queriedAddrs memW1 memW2 = [5] ∧
    compare_mem oracleT memW1 memW2 [] = true :=
  ⟨(compare_mem_spec oracleT memW1 memW2 [] (by decide) (by decide)).2.2.1,
   rfl,
   by simp [compare_mem, sortMaps, memW1, memW2, compare_byte_vals,
     Memory.read, oracleT]⟩

end StateMerging
